import Mathlib

/-!
Verification of the DXF table-reconstruction and weld-detection engine.

The Go sources are shallowly embedded: `float64` coordinates become `ℚ`
for the (exact, executable) table-reconstruction code and `ℝ` for the
weld-symbol geometry (which uses square roots); strings are Lean
`String`s with Go's `strings` helpers modelled for ASCII data (the only
data these drawings carry).
-/

namespace Dxf

/-! ## Go `strings` helpers (ASCII model) -/

/-- `strings.ToLower` (ASCII model; drawing text is ASCII). -/
def toLowerStr (s : String) : String := String.mk (s.data.map Char.toLower)

/-- `strings.ToUpper` (ASCII model). -/
def toUpperStr (s : String) : String := String.mk (s.data.map Char.toUpper)

/-- `strings.Contains haystack needle`. -/
def containsStr (haystack needle : String) : Bool :=
  decide (needle.data <:+: haystack.data)

/-- `strings.TrimSpace` (ASCII whitespace model). -/
def trimSpace (s : String) : String :=
  String.mk (((s.data.dropWhile Char.isWhitespace).reverse.dropWhile
    Char.isWhitespace).reverse)

/-- `strings.HasSuffix s suffix`. -/
def hasSuffixStr (s suffix : String) : Bool :=
  decide (suffix.data <:+ s.data)

/-- `strings.TrimSuffix s suffix`. -/
def trimSuffixStr (s suffix : String) : String :=
  if hasSuffixStr s suffix then
    String.mk (s.data.take (s.data.length - suffix.data.length))
  else s

/-! ## Data model -/

/-- `TextEntity` from `weld_detector.go` (a positioned text fragment). -/
structure TextEntity where
  content : String
  x : ℚ
  y : ℚ
  height : ℚ := 0
  entityType : String := "TEXT"
  layer : String := ""
deriving Repr, DecidableEq

/-- `TableCell` from `weld_detector.go`. -/
structure TableCell where
  x : ℚ
  text : String
deriving Repr, DecidableEq

/-- Go `math.Round`: round half away from zero. -/
def goRound (x : ℚ) : ℤ :=
  if 0 ≤ x then ⌊x + 1/2⌋ else -⌊-x + 1/2⌋

/-- The row key of `extractTable`: `math.Round(entity.Y*10) / 10`
(Y rounded to one decimal place). -/
def yKey (y : ℚ) : ℚ := (goRound (y * 10) : ℚ) / 10

/-! ## Row grouping and sorting

Go groups cells in a `map[float64][]TableCell` (insertion appends, map
iteration order irrelevant because rows are then sorted by their distinct
keys) and sorts with `sort.Slice`.  We group into an association list in
first-seen key order and sort with `List.insertionSort` (a deterministic
refinement of Go's unstable `sort.Slice`; all claim-relevant inputs are
tie-free). -/

/-- Append cell `c` to the group of key `k` (or open a new group). -/
def insertCell (k : ℚ) (c : TableCell) :
    List (ℚ × List TableCell) → List (ℚ × List TableCell)
  | [] => [(k, [c])]
  | (k', cs) :: rest =>
    if k = k' then (k', cs ++ [c]) :: rest else (k', cs) :: insertCell k c rest

/-- Group entities into rows keyed by `yKey` (the `rowsDict` loop). -/
def groupRows (l : List TextEntity) : List (ℚ × List TableCell) :=
  l.foldl (fun acc e => insertCell (yKey e.y) ⟨e.x, e.content⟩ acc) []

/-- Row ordering: descending Y. -/
def rowGE (a b : ℚ × List TableCell) : Prop := b.1 ≤ a.1

instance : DecidableRel rowGE := fun a b => inferInstanceAs (Decidable (b.1 ≤ a.1))

instance : IsTotal (ℚ × List TableCell) rowGE := ⟨fun a b => le_total b.1 a.1⟩

instance : IsTrans (ℚ × List TableCell) rowGE := ⟨fun _ _ _ h h' => le_trans h' h⟩

/-- Cell ordering: ascending X. -/
def cellLE (a b : TableCell) : Prop := a.x ≤ b.x

instance : DecidableRel cellLE := fun a b => inferInstanceAs (Decidable (a.x ≤ b.x))

instance : IsTotal TableCell cellLE := ⟨fun a b => le_total a.x b.x⟩

instance : IsTrans TableCell cellLE := ⟨fun _ _ _ h h' => le_trans h h'⟩

/-- Pad (or truncate) a row to exactly `n` cells: Go's
`paddedRow[i] = row[i] if i < len(row) else ""` loop. -/
def padRow (n : Nat) (row : List String) : List String :=
  (List.range n).map (fun i => row.getD i "")

namespace WeldDetector

/-- `mergeHeaderForCutPipeLength` from `weld_detector.go`. -/
def mergeHeaderForCutPipeLength (h1 h2 : String) : String :=
  if h1 ≠ "" ∧ h2 ≠ "" then
    if h1 = "N.S." ∧ h2 = "(MM)" then "N.S. (MM)"
    else if h1 = "PIECE" ∧ h2 = "NO" then "PIECE NO"
    else if h1 = "CUT" ∧ h2 = "LENGTH" then "CUT LENGTH"
    else if h1 = "REMARKS" ∧ h2 = "NO" then "REMARKS"
    else if h1 = "REMARKS" ∧ h2 = "" then "REMARKS"
    else if h1 = "PIECE" ∧ h2 = "LENGTH" then "PIECE NO"
    else if h1 = "CUT" ∧ h2 = "(MM)" then "CUT LENGTH"
    else trimSpace (h1 ++ " " ++ h2)
  else if h1 ≠ "" ∧ h2 = "" then
    if h1 = "PIECE" then "PIECE NO"
    else if h1 = "CUT" then "CUT LENGTH"
    else if h1 = "N.S." then "N.S. (MM)"
    else h1
  else if h2 ≠ "" ∧ h1 = "" then h2
  else ""

/-- Does a cell mark the `TOTAL WEIGHT` cut-off row? -/
def rowContainsTotalWeight (row : List String) : Bool :=
  row.any (fun cell => containsStr (toUpperStr cell) "TOTAL WEIGHT")

/-- `dataRows[:endIdx]`: keep rows up to and including the first row
containing `TOTAL WEIGHT` (uppercased substring). -/
def truncAtTotalWeight : List (List String) → List (List String)
  | [] => []
  | r :: rest =>
    if rowContainsTotalWeight r then [r] else r :: truncAtTotalWeight rest

/-- Reshape an ordinary data row: strip a trailing `"M"` from the cell at
index 3, pad to at least 6 columns, stamp the category into index 5. -/
def emitRegular (cat : String) (row : List String) : List String :=
  let r1 := if row.getD 3 "" ≠ "" then row.set 3 (trimSuffixStr (row.getD 3 "") "M") else row
  let r2 := r1 ++ List.replicate (6 - r1.length) ""
  r2.set 5 cat

/-- The category state machine of `processErectionMaterialsTable`
(`weld_detector.go`): total rows are reshaped, category-header rows are
consumed into `currentCategory`, ordinary rows are emitted via
`emitRegular`. -/
def processRows (currentCategory : String) : List (List String) → List (List String)
  | [] => []
  | row :: rest =>
    if row = [] then processRows currentCategory rest
    else
      let c0 := row.getD 0 ""
      if c0 ≠ "" then
        if c0 = "TOTAL ERECTION WEIGHT" ∨ c0 = "TOTAL WEIGHT" then
          ["", "", "", "", row.getD 1 "", c0] :: processRows currentCategory rest
        else if row.getD 1 "" = "" ∧ row.getD 3 "" = "" then
          processRows c0 rest
        else
          emitRegular currentCategory row :: processRows currentCategory rest
      else
        emitRegular currentCategory row :: processRows currentCategory rest

/-- `processErectionMaterialsTable` from `weld_detector.go`. -/
def processErectionMaterialsTable (dataRows : List (List String)) : List (List String) :=
  processRows "" (truncAtTotalWeight dataRows)

/-- Insert the `"CATEGORY"` column at position 5 of the header.
(When `0 < header.length < 5` the Go original panics on the
`header[:5]` slice; no claim exercises that path and we take the natural
total extension.) -/
def insertCategoryHeader (header : List String) : List String :=
  header.take 5 ++ ["CATEGORY"] ++ header.drop 5

/-- `validateAndCorrectCutLengthRow` from `weld_detector.go` (the local
simplified version: identity). -/
def validateAndCorrectCutLengthRow (row : List String) : List String := row

/-- Is every cell of the row blank after trimming? -/
def rowAllEmpty (row : List String) : Bool :=
  row.all (fun cell => trimSpace cell = "")

/-- Keep rows up to (excluding) the first fully-empty row. -/
def stopAtEmptyRow : List (List String) → List (List String)
  | [] => []
  | r :: rest => if rowAllEmpty r then [] else r :: stopAtEmptyRow rest

/-- `extractTable` from `weld_detector.go` (both identical copies). -/
def extractTable (textEntities : List TextEntity) (tableTitle : String) :
    List String × List (List String) :=
  match textEntities.find?
      (fun e => containsStr (toLowerStr e.content) (toLowerStr tableTitle)) with
  | none => ([], [])
  | some t =>
    let minX := if toLowerStr tableTitle = "cut pipe length" then t.x - 50 else t.x
    let filtered := textEntities.filter (fun e => decide (e.y < t.y) && decide (minX ≤ e.x))
    let sortedRows := List.insertionSort rowGE (groupRows filtered)
    let tableRows := sortedRows.map (fun g => (List.insertionSort cellLE g.2).map (·.text))
    let hd :=
      if 2 ≤ tableRows.length then
        let r0 := tableRows.getD 0 []
        let r1 := tableRows.getD 1 []
        let n := max r0.length r1.length
        let header := (List.range n).map (fun i =>
          if toLowerStr tableTitle = "cut pipe length" then
            mergeHeaderForCutPipeLength (r0.getD i "") (r1.getD i "")
          else
            trimSpace ((r0.getD i "") ++ " " ++ (r1.getD i "")))
        (header, tableRows.drop 2)
      else
        (tableRows.getD 0 [], tableRows.drop 1)
    let hd :=
      if containsStr (toUpperStr tableTitle) "ERECTION MATERIALS" then
        (if hd.1.length ≠ 0 then insertCategoryHeader hd.1 else hd.1,
         processErectionMaterialsTable hd.2)
      else hd
    let hd :=
      if toLowerStr tableTitle = "cut pipe length" then
        (hd.1,
         (hd.2.filter (fun row => containsStr (String.join row) "<")).map
           validateAndCorrectCutLengthRow)
      else hd
    let hd :=
      if containsStr (toUpperStr tableTitle) "CUT PIPE LENGTH" then
        (hd.1, stopAtEmptyRow hd.2)
      else hd
    (hd.1, hd.2.map (padRow hd.1.length))

end WeldDetector

/-! ## Helper lemmas -/

theorem padRow_length (n : Nat) (row : List String) : (padRow n row).length = n := by
  simp [padRow]

/-- Go `math.Round` sends anything strictly within `1/2` of the integer
`k` to `k`. -/
theorem goRound_eq_of_abs_lt (x : ℚ) (k : ℤ) (h : |x - k| < 1/2) : goRound x = k := by
  rw [abs_lt] at h
  obtain ⟨h1, h2⟩ := h
  unfold goRound
  split
  · rw [Int.floor_eq_iff]
    exact ⟨by linarith, by linarith⟩
  · rw [neg_eq_iff_eq_neg, Int.floor_eq_iff]
    refine ⟨?_, ?_⟩ <;>
    · push_cast
      linarith [h1, h2]

namespace WeldDetector

/-! ## C1: padding invariant -/

/-- A table whose third data-captured row has more cells than the
two-cell-derived header. -/
def exTruncation : List TextEntity :=
  [⟨"T", 0, 10, 0, "TEXT", ""⟩, ⟨"H1", 0, 9, 0, "TEXT", ""⟩, ⟨"H2", 0, 8, 0, "TEXT", ""⟩,
   ⟨"A", 0, 7, 0, "TEXT", ""⟩, ⟨"B", 1, 7, 0, "TEXT", ""⟩, ⟨"C", 2, 7, 0, "TEXT", ""⟩]

/-- C1 counterexample: the data row clustered at `y = 7` has the three
cells `A`, `B`, `C`, but the header has a single column, and
`extractTable` truncates the row to one cell — the cells `B` and `C` of a
data row are dropped, contradicting "rows longer than the header are
never truncated (no cell of a data row is dropped)". -/
theorem extractTable_truncates_long_rows :
    extractTable exTruncation "T" = (["H1 H2"], [["A"]]) ∧
      ∀ r ∈ (extractTable exTruncation "T").2, "B" ∉ r := by
  with_unfolding_all decide

/-- C1 (amended): every returned data row has exactly as many cells as
the header; rows shorter than the header are right-padded with empty
strings and rows longer than the header are truncated to the header
length. -/
theorem extractTable_padded_row_length (es : List TextEntity) (t : String) :
    ∀ r ∈ (extractTable es t).2, r.length = (extractTable es t).1.length := by
  intro r hr
  rcases hfind : List.find? (fun e => containsStr (toLowerStr e.content) (toLowerStr t)) es
    with _ | e
  · rw [extractTable, hfind] at hr
    simp at hr
  · rw [extractTable, hfind] at hr ⊢
    simp only at hr ⊢
    obtain ⟨row, -, rfl⟩ := List.mem_map.mp hr
    exact padRow_length _ _

/-- C1 witness: the padding invariant evaluated on the concrete table. -/
theorem extractTable_padded_row_length_witness :
    ["A"] ∈ (extractTable exTruncation "T").2 ∧
      List.length ["A"] = (extractTable exTruncation "T").1.length :=
  ⟨by with_unfolding_all decide,
   extractTable_padded_row_length exTruncation "T" ["A"] (by with_unfolding_all decide)⟩

/-! ## C4: row-clustering tolerance -/

/-- Fragments at `y = 0.06` and `y = 0.04` (plus a title and two header
rows) — their Y's differ by `0.02 ≤ 0.05` yet they land in different
rows. -/
def exTolerance : List TextEntity :=
  [⟨"T", 0, 10, 0, "TEXT", ""⟩, ⟨"H", 0, 9, 0, "TEXT", ""⟩, ⟨"H2", 0, 8, 0, "TEXT", ""⟩,
   ⟨"A", 0, 6/100, 0, "TEXT", ""⟩, ⟨"B", 0, 4/100, 0, "TEXT", ""⟩]

/-- C4 counterexample: the fragments `A` (Y = 0.06) and `B` (Y = 0.04)
pass the table filter and differ in Y by `0.02 ≤ 0.05`, yet their row
keys differ (`0.1` vs `0`) and `extractTable` produces them as two
separate data rows. -/
theorem row_key_tolerance_counterexample :
    |(6 : ℚ)/100 - 4/100| ≤ 5/100 ∧ yKey (6/100) ≠ yKey (4/100) ∧
      extractTable exTolerance "T" = (["H H2"], [["A"], ["B"]]) := by
  with_unfolding_all decide

/-- C4 (amended): the row key is the Y coordinate rounded (half away
from zero) to one decimal place, so two fragments share a row exactly
when their Y's round to the same tenth; in particular any two Y's
strictly within `0.05` of a common tenth-of-a-unit gridpoint `k/10`
share a row key, but Y's at most `0.05` apart that straddle a rounding
boundary do not. -/
theorem yKey_same_tenth (y1 y2 : ℚ) (k : ℤ)
    (h1 : |y1 - k/10| < 1/20) (h2 : |y2 - k/10| < 1/20) :
    yKey y1 = yKey y2 := by
  have e1 : goRound (y1 * 10) = k := by
    apply goRound_eq_of_abs_lt
    rw [abs_lt] at h1 ⊢
    constructor <;> linarith [h1.1, h1.2]
  have e2 : goRound (y2 * 10) = k := by
    apply goRound_eq_of_abs_lt
    rw [abs_lt] at h2 ⊢
    constructor <;> linarith [h2.1, h2.2]
  unfold yKey
  rw [e1, e2]

/-- C4 witness: `Y = 0.11` and `Y = 0.09` are both within `0.05` of the
gridpoint `0.1`, and indeed share the row key. -/
theorem yKey_same_tenth_witness :
    |(11 : ℚ)/100 - 1/10| < 1/20 ∧ |(9 : ℚ)/100 - 1/10| < 1/20 ∧
      yKey (11/100) = yKey (9/100) :=
  ⟨by rw [abs_lt]; norm_num, by rw [abs_lt]; norm_num,
   yKey_same_tenth (11/100) (9/100) 1
     (by rw [abs_lt]; push_cast; norm_num) (by rw [abs_lt]; push_cast; norm_num)⟩

/-! ## C8: absent title -/

/-- C8: if no fragment's content contains the table title
(case-insensitively), `extractTable` returns an empty header and an
empty row list. -/
theorem extractTable_absent_title (es : List TextEntity) (t : String)
    (h : ∀ e ∈ es, containsStr (toLowerStr e.content) (toLowerStr t) = false) :
    extractTable es t = ([], []) := by
  have hfind : List.find? (fun e => containsStr (toLowerStr e.content) (toLowerStr t)) es
      = none := by
    rw [List.find?_eq_none]
    intro x hx
    simp [h x hx]
  rw [extractTable, hfind]

/-- C8 witness: a fragment set without the `ERECTION MATERIALS` title. -/
theorem extractTable_absent_title_witness :
    extractTable [⟨"HELLO WORLD", 0, 0, 0, "TEXT", ""⟩] "ERECTION MATERIALS" = ([], []) :=
  extractTable_absent_title _ _ (by decide)

/-! ## C3: category-header classification -/

theorem truncAtTotalWeight_singleton (r : List String) : truncAtTotalWeight [r] = [r] := by
  simp [truncAtTotalWeight]

/-- The observable outcome of the state machine on a single row. -/
theorem processRows_singleton (cat : String) (r : List String) (hr : r ≠ [])
    (h0 : r.getD 0 "" ≠ "") :
    processRows cat [r] =
      if r.getD 0 "" = "TOTAL ERECTION WEIGHT" ∨ r.getD 0 "" = "TOTAL WEIGHT" then
        [["", "", "", "", r.getD 1 "", r.getD 0 ""]]
      else if r.getD 1 "" = "" ∧ r.getD 3 "" = "" then []
      else [emitRegular cat r] := by
  rw [processRows, if_neg hr, if_pos h0]
  split
  · rfl
  · split
    · rw [processRows]
    · rw [processRows]

/-- C3 counterexample: the row `["CAT", "", "x", "", "y"]` has non-empty
cells at indices 2 and 4, so by the claim it is *not* a category header;
yet the code consumes it (it checks indices 1 and 3), emitting no data
row. -/
theorem materials_category_indices_counterexample :
    (["CAT", "", "x", "", "y"].getD 2 "" ≠ "" ∧ ["CAT", "", "x", "", "y"].getD 4 "" ≠ "") ∧
      processErectionMaterialsTable [["CAT", "", "x", "", "y"]] = [] := by
  decide

/-- C3 (amended): a row with a non-empty first cell is consumed as a
category header exactly when its cells at indices 1 and 3 (0-indexed)
are both empty; a first cell equal to `TOTAL ERECTION WEIGHT` or
`TOTAL WEIGHT` is instead reshaped into a six-column total row. -/
theorem materials_category_classification (r : List String) (h0 : r.getD 0 "" ≠ "") :
    ((r.getD 0 "" ≠ "TOTAL ERECTION WEIGHT" ∧ r.getD 0 "" ≠ "TOTAL WEIGHT") →
      (processErectionMaterialsTable [r] = [] ↔ r.getD 1 "" = "" ∧ r.getD 3 "" = "")) ∧
    ((r.getD 0 "" = "TOTAL ERECTION WEIGHT" ∨ r.getD 0 "" = "TOTAL WEIGHT") →
      processErectionMaterialsTable [r] = [["", "", "", "", r.getD 1 "", r.getD 0 ""]]) := by
  have hr : r ≠ [] := by
    intro h
    rw [h] at h0
    simp at h0
  have key := processRows_singleton "" r hr h0
  unfold processErectionMaterialsTable
  rw [truncAtTotalWeight_singleton, key]
  constructor
  · rintro ⟨ht1, ht2⟩
    rw [if_neg (by tauto)]
    constructor
    · intro hout
      by_contra hcells
      rw [if_neg hcells] at hout
      exact List.cons_ne_nil _ _ hout
    · intro hcells
      rw [if_pos hcells]
  · intro ht
    rw [if_pos ht]

/-- C3 witness: the bare category row `["PIPE"]` is consumed. -/
theorem materials_category_classification_witness :
    processErectionMaterialsTable [["PIPE"]] = [] :=
  ((materials_category_classification ["PIPE"] (by decide)).1 (by decide)).mpr (by decide)

end WeldDetector

/-! ## BOM extractor: cut-length row validation and drawing-number locator -/

namespace BomExtractor

/-- Exponent suffix of a Go float literal: empty, or `e`/`E`, optional
sign, then at least one digit. -/
def expPart : List Char → Bool
  | [] => true
  | e :: rest =>
    if e = 'e' ∨ e = 'E' then
      let digitsPart := match rest with
        | c :: r => if c = '+' ∨ c = '-' then r else c :: r
        | [] => []
      decide (digitsPart ≠ []) && digitsPart.all Char.isDigit
    else false

/-- Decimal mantissa (digits, optional dot, optional fraction digits; at
least one digit overall) followed by an optional exponent. -/
def mantissaExp (cs : List Char) : Bool :=
  let intPart := cs.takeWhile Char.isDigit
  let rest := cs.dropWhile Char.isDigit
  match rest with
  | '.' :: rest2 =>
    let fracPart := rest2.takeWhile Char.isDigit
    let rest3 := rest2.dropWhile Char.isDigit
    (decide (intPart ≠ []) || decide (fracPart ≠ [])) && expPart rest3
  | _ => decide (intPart ≠ []) && expPart rest

/-- Case-insensitive comparison against a keyword. -/
def lowerEqList (cs : List Char) (t : String) : Bool :=
  cs.map Char.toLower == t.data

/-- Acceptance of Go `strconv.ParseFloat`: optional sign and a decimal
mantissa/exponent, or the special values `inf`/`infinity` (optionally
signed) and `nan`.  (Go's hexadecimal floats and digit-separator
underscores are not modelled; they do not occur in drawing text.) -/
def goParseFloatAccepts (s : String) : Bool :=
  let cs := s.data
  if lowerEqList cs "nan" then true
  else
    let body := match cs with
      | c :: rest => if c = '+' ∨ c = '-' then rest else cs
      | [] => []
    if lowerEqList body "inf" || lowerEqList body "infinity" then true
    else mantissaExp body

/-- `isNumber` from the BOM extractor: `strconv.ParseFloat` succeeds on
the trimmed text. -/
def isNumber (text : String) : Bool := goParseFloatAccepts (trimSpace text)

/-- `isPieceNumber`: trimmed text fully matches `^<\d+>$`. -/
def isPieceNumber (text : String) : Bool :=
  match (trimSpace text).data with
  | '<' :: rest =>
    decide (rest.dropLast ≠ []) && rest.dropLast.all Char.isDigit &&
      (rest.getLast? == some '>')
  | _ => false

/-- `isTextRemark`: non-blank, not a piece number, not a number. -/
def isTextRemark (text : String) : Bool :=
  let t := trimSpace text
  if t = "" then false else !isPieceNumber t && !isNumber t

/-- The piece-number cells of a row, with their indices (trimmed values,
as stored by the Go loop). -/
def pieceIndices (row : List String) : List (Nat × String) :=
  (row.enum.filter (fun p => isPieceNumber (trimSpace p.2))).map
    (fun p => (p.1, trimSpace p.2))

/-- One piece's collected data. -/
structure PieceGroup where
  piece : String
  numbers : List String
  remarks : List String
deriving Repr, DecidableEq, Inhabited

/-- Partition the (trimmed, non-blank) cells between two pieces into
numeric cells and remark cells, in order. -/
def classifyCells : List String → List String × List String
  | [] => ([], [])
  | cell :: rest =>
    let p := classifyCells rest
    let c := trimSpace cell
    if c = "" then p
    else if isNumber c then (c :: p.1, p.2)
    else if isTextRemark c then (p.1, c :: p.2)
    else p

/-- Build the per-piece groups: each piece owns the cells strictly
between its index and the next piece's index (or the end of the row). -/
def pieceGroupsAux (row : List String) : List (Nat × String) → List PieceGroup
  | [] => []
  | (i, v) :: rest =>
    let stop := match rest with
      | (j, _) :: _ => j
      | [] => row.length
    let p := classifyCells ((row.drop (i + 1)).take (stop - (i + 1)))
    ⟨v, p.1, p.2⟩ :: pieceGroupsAux row rest

/-- The piece groups of a row. -/
def pieceGroupsOf (row : List String) : List PieceGroup :=
  pieceGroupsAux row (pieceIndices row)

/-- Write one piece group into its four output columns: piece number at
`baseCol`, up to two numeric values at the next two columns, the first
remark (if any) at `baseCol + 3`. -/
def fillGroup (corrected : List String) (baseCol : Nat) (g : PieceGroup) : List String :=
  let c1 := corrected.set baseCol g.piece
  let c2 := match g.numbers with
    | [] => c1
    | [n] => c1.set (baseCol + 1) n
    | n :: m :: _ => (c1.set (baseCol + 1) n).set (baseCol + 2) m
  match g.remarks with
  | [] => c2
  | rem :: _ => c2.set (baseCol + 3) rem

/-- `validateAndCorrectCutLengthRow` from the BOM extractor: detect the
pieces of a physical row and rebuild a canonical 8-column row (up to two
pieces; rows with no pieces are passed through padded/truncated to 8
columns). -/
def validateAndCorrectCutLengthRow (row : List String) : List String :=
  if row = [] then row
  else
    match pieceGroupsOf row with
    | [] => padRow 8 row
    | [g0] => fillGroup (List.replicate 8 "") 0 g0
    | g0 :: g1 :: _ => fillGroup (fillGroup (List.replicate 8 "") 0 g0) 4 g1

/-- Go regexp word character (`\w`, ASCII). -/
def isWordChar (c : Char) : Bool := c.isAlphanum || c = '_'

/-- Does `\d[A-Z]{3}\d{2}BR\d{3}` match at the head of the character
list? -/
def kksAt : List Char → Bool
  | d1 :: u1 :: u2 :: u3 :: d2 :: d3 :: b :: r :: f1 :: f2 :: f3 :: _ =>
    d1.isDigit && u1.isUpper && u2.isUpper && u3.isUpper &&
      d2.isDigit && d3.isDigit && (b = 'B' : Bool) && (r = 'R' : Bool) &&
      f1.isDigit && f2.isDigit && f3.isDigit
  | _ => false

/-- The `\b` boundary after the 11-character match. -/
def kksBoundaryAfter (cs : List Char) : Bool :=
  match (cs.drop 11).head? with
  | none => true
  | some c => !isWordChar c

/-- Leftmost-match scan for the drawing-number pattern, tracking the
previous character for the leading `\b` boundary. -/
def kksScanAux : Option Char → List Char → Option String
  | _, [] => none
  | prev, c :: rest =>
    if (match prev with | none => true | some p => !isWordChar p) &&
        kksAt (c :: rest) && kksBoundaryAfter (c :: rest) then
      some (String.mk ((c :: rest).take 11))
    else kksScanAux (some c) rest

/-- `kksPattern.FindString`: the leftmost match of
`\b\d[A-Z]{3}\d{2}BR\d{3}\b`, or `""` when there is none. -/
def kksFindString (s : String) : String :=
  match kksScanAux none s.data with
  | some m => m
  | none => ""

/-- A drawing-number candidate with its position. -/
structure KKSCandidate where
  value : String
  x : ℚ
  y : ℚ
  absY : ℚ
deriving Repr, DecidableEq

/-- Candidate ordering: ascending `|Y|`. -/
def candLE (a b : KKSCandidate) : Prop := a.absY ≤ b.absY

instance : DecidableRel candLE := fun a b => inferInstanceAs (Decidable (a.absY ≤ b.absY))

instance : IsTotal KKSCandidate candLE := ⟨fun a b => le_total a.absY b.absY⟩

instance : IsTrans KKSCandidate candLE := ⟨fun _ _ _ h h' => le_trans h h'⟩

/-- The materials-table anchor: first fragment whose uppercased content
contains `ERECTION MATERIALS`. -/
def anchorEM (entities : List TextEntity) : Option TextEntity :=
  entities.find? (fun e => containsStr (toUpperStr e.content) "ERECTION MATERIALS")

/-- The drawing-number candidates of `findDrawingNo`: every fragment
with a pattern match — restricted, when the anchor exists, to fragments
at-or-right-of and at-or-below the anchor. -/
def kksCandidates (entities : List TextEntity) : List KKSCandidate :=
  entities.filterMap (fun e =>
    let m := kksFindString e.content
    if m ≠ "" then
      match anchorEM entities with
      | some a =>
        if a.x ≤ e.x ∧ e.y ≤ a.y then some ⟨m, e.x, e.y, |e.y|⟩ else none
      | none => some ⟨m, e.x, e.y, |e.y|⟩
    else none)

/-- The `Drawing-No.` label-adjacency fallback: after a fragment whose
content contains `Drawing-No.`, pick the first of the next four
fragments positioned strictly to its right or strictly below it. -/
def drawingNoFallback : List TextEntity → String
  | [] => ""
  | e :: rest =>
    if containsStr e.content "Drawing-No." then
      match (rest.take 4).find? (fun n => decide (e.x < n.x) || decide (n.y < e.y)) with
      | some n => n.content
      | none => drawingNoFallback rest
    else drawingNoFallback rest

/-- `findDrawingNo` from the BOM extractor. -/
def findDrawingNo (entities : List TextEntity) : String :=
  match List.insertionSort candLE (kksCandidates entities) with
  | c :: _ => c.value
  | [] => drawingNoFallback entities

end BomExtractor

/-- `getD` after `set`. -/
theorem getD_set {α : Type} (l : List α) (i j : Nat) (a d : α) :
    (l.set i a).getD j d = if j = i ∧ i < l.length then a else l.getD j d := by
  rw [List.getD_eq_getElem?_getD, List.getD_eq_getElem?_getD, List.getElem?_set]
  rcases eq_or_ne i j with rfl | hij
  · rcases Nat.lt_or_ge i l.length with hi | hi
    · simp [hi]
    · simp [Nat.not_lt.mpr hi, List.getElem?_eq_none hi]
  · simp [hij, Ne.symm hij]

namespace BomExtractor

/-! ## C7: cut-length row validation -/

/-- C7: on `["<5>", "120", "OK"]` one piece is detected with numeric
`120` and remark `OK`, giving the 8-column row
`["<5>", "120", "", "OK", "", "", "", ""]`; in general (for up to two
pieces) the piece number goes to column `4*pieceIndex`, up to two
numeric values to the next two columns, and the first remark to column
`4*pieceIndex + 3`. -/
theorem cutlength_row_placement :
    validateAndCorrectCutLengthRow ["<5>", "120", "OK"] =
        ["<5>", "120", "", "OK", "", "", "", ""] ∧
      ∀ row : List String, ∀ gIdx : Nat, gIdx < min 2 (pieceGroupsOf row).length →
        ((validateAndCorrectCutLengthRow row).getD (4 * gIdx) ""
            = ((pieceGroupsOf row).getD gIdx default).piece ∧
          (∀ nIdx : Nat, nIdx < min 2 ((pieceGroupsOf row).getD gIdx default).numbers.length →
            (validateAndCorrectCutLengthRow row).getD (4 * gIdx + 1 + nIdx) ""
              = ((pieceGroupsOf row).getD gIdx default).numbers.getD nIdx "") ∧
          (validateAndCorrectCutLengthRow row).getD (4 * gIdx + 3) ""
            = ((pieceGroupsOf row).getD gIdx default).remarks.headD "") := by
  refine ⟨by decide, ?_⟩
  intro row gIdx hg
  have hrow : row ≠ [] := by
    intro h
    rw [h] at hg
    simp [pieceGroupsOf, pieceIndices, pieceGroupsAux] at hg
  unfold validateAndCorrectCutLengthRow
  rw [if_neg hrow]
  rcases hG : pieceGroupsOf row with _ | ⟨g0, _ | ⟨g1, gt⟩⟩ <;> rw [hG] at hg
  · simp at hg
  · obtain ⟨p0, nums0, rems0⟩ := g0
    obtain rfl : gIdx = 0 := by
      simp only [List.length_cons, List.length_nil] at hg
      omega
    simp only [List.getD_cons_zero]
    refine ⟨?_, ?_, ?_⟩
    · rcases nums0 with _ | ⟨n, _ | ⟨m, nt⟩⟩ <;> rcases rems0 with _ | ⟨rm, rt⟩ <;>
        simp [fillGroup, getD_set]
    · intro nIdx hn
      rcases nums0 with _ | ⟨n, _ | ⟨m, nt⟩⟩
      · simp at hn
      · obtain rfl : nIdx = 0 := by
          simp only [List.length_cons, List.length_nil] at hn
          omega
        rcases rems0 with _ | ⟨rm, rt⟩ <;> simp [fillGroup, getD_set]
      · have hn2 : nIdx < 2 := by
          simp only [List.length_cons] at hn
          omega
        interval_cases nIdx <;> rcases rems0 with _ | ⟨rm, rt⟩ <;>
          simp [fillGroup, getD_set]
    · rcases nums0 with _ | ⟨n, _ | ⟨m, nt⟩⟩ <;> rcases rems0 with _ | ⟨rm, rt⟩ <;>
        simp [fillGroup, getD_set]
  · obtain ⟨p0, nums0, rems0⟩ := g0
    obtain ⟨p1, nums1, rems1⟩ := g1
    have hg2 : gIdx < 2 := by
      simp only [List.length_cons] at hg
      omega
    interval_cases gIdx
    · simp only [List.getD_cons_zero]
      refine ⟨?_, ?_, ?_⟩
      · rcases nums0 with _ | ⟨n, _ | ⟨m, nt⟩⟩ <;> rcases rems0 with _ | ⟨rm, rt⟩ <;>
          rcases nums1 with _ | ⟨n1, _ | ⟨m1, nt1⟩⟩ <;> rcases rems1 with _ | ⟨rm1, rt1⟩ <;>
          simp [fillGroup, getD_set]
      · intro nIdx hn
        rcases nums0 with _ | ⟨n, _ | ⟨m, nt⟩⟩
        · simp at hn
        · obtain rfl : nIdx = 0 := by
            simp only [List.length_cons, List.length_nil] at hn
            omega
          rcases rems0 with _ | ⟨rm, rt⟩ <;>
            rcases nums1 with _ | ⟨n1, _ | ⟨m1, nt1⟩⟩ <;>
            rcases rems1 with _ | ⟨rm1, rt1⟩ <;>
            simp [fillGroup, getD_set]
        · have hn2 : nIdx < 2 := by
            simp only [List.length_cons] at hn
            omega
          interval_cases nIdx <;>
            rcases rems0 with _ | ⟨rm, rt⟩ <;>
            rcases nums1 with _ | ⟨n1, _ | ⟨m1, nt1⟩⟩ <;>
            rcases rems1 with _ | ⟨rm1, rt1⟩ <;>
            simp [fillGroup, getD_set]
      · rcases nums0 with _ | ⟨n, _ | ⟨m, nt⟩⟩ <;> rcases rems0 with _ | ⟨rm, rt⟩ <;>
          rcases nums1 with _ | ⟨n1, _ | ⟨m1, nt1⟩⟩ <;> rcases rems1 with _ | ⟨rm1, rt1⟩ <;>
          simp [fillGroup, getD_set]
    · simp only [List.getD_cons_succ, List.getD_cons_zero]
      refine ⟨?_, ?_, ?_⟩
      · rcases nums0 with _ | ⟨n, _ | ⟨m, nt⟩⟩ <;> rcases rems0 with _ | ⟨rm, rt⟩ <;>
          rcases nums1 with _ | ⟨n1, _ | ⟨m1, nt1⟩⟩ <;> rcases rems1 with _ | ⟨rm1, rt1⟩ <;>
          simp [fillGroup, getD_set]
      · intro nIdx hn
        rcases nums1 with _ | ⟨n1, _ | ⟨m1, nt1⟩⟩
        · simp at hn
        · obtain rfl : nIdx = 0 := by
            simp only [List.length_cons, List.length_nil] at hn
            omega
          rcases nums0 with _ | ⟨n, _ | ⟨m, nt⟩⟩ <;>
            rcases rems0 with _ | ⟨rm, rt⟩ <;>
            rcases rems1 with _ | ⟨rm1, rt1⟩ <;>
            simp [fillGroup, getD_set]
        · have hn2 : nIdx < 2 := by
            simp only [List.length_cons] at hn
            omega
          interval_cases nIdx <;>
            rcases nums0 with _ | ⟨n, _ | ⟨m, nt⟩⟩ <;>
            rcases rems0 with _ | ⟨rm, rt⟩ <;>
            rcases rems1 with _ | ⟨rm1, rt1⟩ <;>
            simp [fillGroup, getD_set]
      · rcases nums0 with _ | ⟨n, _ | ⟨m, nt⟩⟩ <;> rcases rems0 with _ | ⟨rm, rt⟩ <;>
          rcases nums1 with _ | ⟨n1, _ | ⟨m1, nt1⟩⟩ <;> rcases rems1 with _ | ⟨rm1, rt1⟩ <;>
          simp [fillGroup, getD_set]

/-- C7 witness: the general placement property evaluated at
`["<5>", "120", "OK"]`, piece index 0. -/
theorem cutlength_row_placement_witness :
    (validateAndCorrectCutLengthRow ["<5>", "120", "OK"]).getD 0 ""
        = ((pieceGroupsOf ["<5>", "120", "OK"]).getD 0 default).piece :=
  ((cutlength_row_placement.2 ["<5>", "120", "OK"] 0 (by decide))).1

/-! ## C5: drawing-number locator -/

/-- An anchored drawing whose only pattern match lies left of the
anchor. -/
def exDrawingNo : List TextEntity :=
  [⟨"ERECTION MATERIALS", 100, 100, 0, "TEXT", ""⟩,
   ⟨"1ABC23BR456", 0, 50, 0, "TEXT", ""⟩]

/-- C5 counterexample: the anchor exists and no candidate lies in the
at-or-right-of / at-or-below region, so by the claim the locator should
fall back to an unfiltered scan and return `1ABC23BR456`; the code
instead returns `""` (it skips straight to the `Drawing-No.` label scan,
which also finds nothing). -/
theorem findDrawingNo_no_unfiltered_fallback :
    kksFindString "1ABC23BR456" = "1ABC23BR456" ∧
      (anchorEM exDrawingNo).isSome = true ∧
      kksCandidates exDrawingNo = [] ∧
      findDrawingNo exDrawingNo = "" := by
  with_unfolding_all decide

/-- C5 (amended): when the anchor exists every candidate comes from a
fragment at-or-right-of and at-or-below it; when the candidate list is
non-empty the locator returns a candidate of minimal `|Y|`; when it is
empty (in particular: anchor present but nothing in its region) the
locator goes directly to the `Drawing-No.` label-adjacency scan — the
unfiltered scan happens only when there is no anchor at all (it is the
`none` branch inside `kksCandidates`). -/
theorem findDrawingNo_cases (es : List TextEntity) :
    (∀ a, anchorEM es = some a →
      ∀ c ∈ kksCandidates es, ∃ e ∈ es,
        kksFindString e.content = c.value ∧ a.x ≤ e.x ∧ e.y ≤ a.y ∧
          c.x = e.x ∧ c.y = e.y) ∧
    (kksCandidates es ≠ [] →
      ∃ c ∈ kksCandidates es, findDrawingNo es = c.value ∧
        ∀ c' ∈ kksCandidates es, c.absY ≤ c'.absY) ∧
    (kksCandidates es = [] → findDrawingNo es = drawingNoFallback es) := by
  refine ⟨?_, ?_, ?_⟩
  · intro a ha c hc
    obtain ⟨e, he, hfe⟩ := List.mem_filterMap.mp hc
    refine ⟨e, he, ?_⟩
    rw [ha] at hfe
    simp only at hfe
    by_cases hm : kksFindString e.content ≠ ""
    · rw [if_pos hm] at hfe
      by_cases hreg : a.x ≤ e.x ∧ e.y ≤ a.y
      · rw [if_pos hreg] at hfe
        obtain rfl := Option.some_injective _ hfe
        exact ⟨rfl, hreg.1, hreg.2, rfl, rfl⟩
      · rw [if_neg hreg] at hfe
        exact absurd hfe (Option.noConfusion)
    · rw [if_neg hm] at hfe
      exact absurd hfe (Option.noConfusion)
  · intro hne
    have hperm := List.perm_insertionSort candLE (kksCandidates es)
    have hsort := List.sorted_insertionSort candLE (kksCandidates es)
    cases hL : List.insertionSort candLE (kksCandidates es) with
    | nil =>
      rw [hL] at hperm
      exact absurd (hperm.symm.eq_nil) hne
    | cons c t =>
      rw [hL] at hperm hsort
      refine ⟨c, hperm.mem_iff.mp (List.mem_cons_self c t), ?_, ?_⟩
      · unfold findDrawingNo
        rw [hL]
      · intro c' hc'
        rcases List.mem_cons.mp (hperm.mem_iff.mpr hc') with rfl | hmem
        · exact le_refl _
        · exact List.rel_of_sorted_cons hsort c' hmem
  · intro h
    unfold findDrawingNo
    rw [h]
    rfl

/-- An anchored drawing whose pattern match lies inside the anchor's
region. -/
def exDrawingNoIn : List TextEntity :=
  [⟨"ERECTION MATERIALS", 0, 100, 0, "TEXT", ""⟩,
   ⟨"1ABC23BR456", 10, 50, 0, "TEXT", ""⟩]

/-- C5 witness: the minimal-`|Y|` selection evaluated on a drawing with
one in-region candidate. -/
theorem findDrawingNo_cases_witness :
    ∃ c ∈ kksCandidates exDrawingNoIn, findDrawingNo exDrawingNoIn = c.value ∧
      ∀ c' ∈ kksCandidates exDrawingNoIn, c.absY ≤ c'.absY :=
  (findDrawingNo_cases exDrawingNoIn).2.1 (by with_unfolding_all decide)

end BomExtractor

/-! ## Page Segmenter (spec §4.2)

The multi-page extraction path lives in `table_extraction.go`, which is
referenced by the repository's multi-table implementation guide but is
not among the provided sources (both `extractTable` copies in
`weld_detector.go` stop at the first title occurrence).  The segmenter
is therefore modelled from the spec and the guide. -/

namespace PageSegmenter

/-- Modelled from the spec: collect every Y-coordinate where a
fragment's text contains the materials-table title (not just the
first); case-insensitive substring match as in the reconstructor. -/
def titleYs (entities : List TextEntity) (title : String) : List ℚ :=
  (entities.filter
    (fun e => containsStr (toLowerStr e.content) (toLowerStr title))).map (·.y)

/-- Descending order on boundary Y's. -/
def descGE (a b : ℚ) : Prop := b ≤ a

instance : DecidableRel descGE := fun a b => inferInstanceAs (Decidable (b ≤ a))

instance : IsTotal ℚ descGE := ⟨fun a b => le_total b a⟩

instance : IsTrans ℚ descGE := ⟨fun _ _ _ h h' => le_trans h' h⟩

/-- Modelled from the spec: page boundaries are the collected title Y's
sorted descending (drawings stack top-to-bottom in decreasing Y). -/
def pageBoundaries (entities : List TextEntity) (title : String) : List ℚ :=
  List.insertionSort descGE (titleYs entities title)

/-- Modelled from the spec: page `i` spans from its own boundary
(inclusive) down to the next boundary (exclusive); the last page is
unbounded below. -/
def pagesOf : List ℚ → List (ℚ × Option ℚ)
  | [] => []
  | [b] => [(b, none)]
  | b :: b2 :: rest => (b, some b2) :: pagesOf (b2 :: rest)

/-- Modelled from the spec: a fragment belongs to a page when
`y ≤ startY` and (`endY` is null or `y > endY`). -/
def pageBucket (entities : List TextEntity) (p : ℚ × Option ℚ) : List TextEntity :=
  entities.filter (fun e =>
    decide (e.y ≤ p.1) &&
      (match p.2 with
       | none => true
       | some eY => decide (eY < e.y)))

/-- Modelled from the spec: with more than one materials-title
occurrence, every page's bucket is independently passed through the
table reconstructor and the pages' rows are concatenated in page order
(the header is taken from the first page); with at most one occurrence
the single-page path is used unchanged. -/
def extractTableMultiPage (entities : List TextEntity) (tableTitle : String) :
    List String × List (List String) :=
  let bs := pageBoundaries entities "ERECTION MATERIALS"
  if bs.length ≤ 1 then WeldDetector.extractTable entities tableTitle
  else
    let results := (pagesOf bs).map (fun p =>
      WeldDetector.extractTable (pageBucket entities p) tableTitle)
    ((results.map Prod.fst).headD [], (results.map Prod.snd).flatten)

/-- C2: with more than one title occurrence, the boundaries are exactly
the collected Y-coordinates of *all* occurrences sorted descending, a
fragment is bucketed by the inclusive/exclusive page interval, and the
returned rows are the concatenation, in page order, of the rows obtained
by running the reconstructor independently on each page's bucket. -/
theorem extractTableMultiPage_pages (es : List TextEntity) (t : String)
    (h : 1 < (titleYs es "ERECTION MATERIALS").length) :
    (pageBoundaries es "ERECTION MATERIALS").Perm (titleYs es "ERECTION MATERIALS") ∧
    List.Sorted descGE (pageBoundaries es "ERECTION MATERIALS") ∧
    (∀ p ∈ pagesOf (pageBoundaries es "ERECTION MATERIALS"), ∀ e : TextEntity,
      e ∈ pageBucket es p ↔ e ∈ es ∧ e.y ≤ p.1 ∧ ∀ b ∈ p.2, b < e.y) ∧
    (extractTableMultiPage es t).2 =
      ((pagesOf (pageBoundaries es "ERECTION MATERIALS")).map
        (fun p => (WeldDetector.extractTable (pageBucket es p) t).2)).flatten := by
  refine ⟨List.perm_insertionSort descGE _, List.sorted_insertionSort descGE _, ?_, ?_⟩
  · intro p _ e
    constructor
    · intro he
      obtain ⟨hmem, hcond⟩ := List.mem_filter.mp he
      rw [Bool.and_eq_true] at hcond
      refine ⟨hmem, of_decide_eq_true hcond.1, ?_⟩
      intro b hb
      rcases p with ⟨pstart, _ | pend⟩
      · simp at hb
      · obtain rfl := Option.mem_some_iff.mp hb
        exact of_decide_eq_true hcond.2
    · rintro ⟨hmem, hy, hend⟩
      refine List.mem_filter.mpr ⟨hmem, ?_⟩
      rw [Bool.and_eq_true]
      refine ⟨decide_eq_true hy, ?_⟩
      rcases p with ⟨pstart, _ | pend⟩
      · rfl
      · exact decide_eq_true (hend pend (Option.mem_some_iff.mpr rfl))
  · have hlen : ¬ (pageBoundaries es "ERECTION MATERIALS").length ≤ 1 := by
      rw [show (pageBoundaries es "ERECTION MATERIALS").length
            = (titleYs es "ERECTION MATERIALS").length from
          (List.perm_insertionSort descGE _).length_eq]
      omega
    unfold extractTableMultiPage
    rw [if_neg hlen]
    simp only [List.map_map]
    rfl

/-- A two-page drawing: two materials titles with one data fragment on
each page. -/
def exMultiPage : List TextEntity :=
  [⟨"ERECTION MATERIALS", 0, 200, 0, "TEXT", ""⟩,
   ⟨"P1-A", 0, 190, 0, "TEXT", ""⟩,
   ⟨"ERECTION MATERIALS", 0, 100, 0, "TEXT", ""⟩,
   ⟨"P2-A", 0, 90, 0, "TEXT", ""⟩]

/-- C2 witness: the segmentation property evaluated on a two-page
drawing. -/
theorem extractTableMultiPage_pages_witness :
    (pageBoundaries exMultiPage "ERECTION MATERIALS").Perm
        (titleYs exMultiPage "ERECTION MATERIALS") ∧
    List.Sorted descGE (pageBoundaries exMultiPage "ERECTION MATERIALS") ∧
    (∀ p ∈ pagesOf (pageBoundaries exMultiPage "ERECTION MATERIALS"), ∀ e : TextEntity,
      e ∈ pageBucket exMultiPage p ↔ e ∈ exMultiPage ∧ e.y ≤ p.1 ∧ ∀ b ∈ p.2, b < e.y) ∧
    (extractTableMultiPage exMultiPage "ERECTION MATERIALS").2 =
      ((pagesOf (pageBoundaries exMultiPage "ERECTION MATERIALS")).map
        (fun p =>
          (WeldDetector.extractTable (pageBucket exMultiPage p) "ERECTION MATERIALS").2)).flatten :=
  extractTableMultiPage_pages exMultiPage "ERECTION MATERIALS"
    (by with_unfolding_all decide)

end PageSegmenter

/-! ## CSV post-processing: `fixMissingNSColumns` (spatial.go) -/

namespace Spatial

/-- Pad a CSV record so the WEIGHT column exists (Go's
`for len(row) <= weightIdx` append loop). -/
def padToWeight (weightIdx : Nat) (row : List String) : List String :=
  row ++ List.replicate (weightIdx + 1 - row.length) ""

/-- The column-shift pass of `fixMissingNSColumns`: when the PT NO cell
is non-blank and the WEIGHT cell is blank, WEIGHT receives the old QTY
value, QTY receives the old N.S. value, and N.S. is cleared. -/
def fixRowNS (ptNoIdx nsIdx qtyIdx weightIdx : Nat) (row : List String) : List String :=
  let p := padToWeight weightIdx row
  if trimSpace (p.getD ptNoIdx "") ≠ "" ∧ trimSpace (p.getD weightIdx "") = "" then
    ((p.set weightIdx (p.getD qtyIdx "")).set qtyIdx (p.getD nsIdx "")).set nsIdx ""
  else p

/-- The QTY-cleaning pass of `fixMissingNSColumns`: a non-blank QTY
whose uppercased form ends in `M` is replaced by that uppercased form
with the final `M` removed and whitespace trimmed. -/
def cleanQtyCell (qtyIdx : Nat) (row : List String) : List String :=
  if qtyIdx < row.length then
    let q := trimSpace (row.getD qtyIdx "")
    if q ≠ "" ∧ hasSuffixStr (toUpperStr q) "M" then
      let clean := trimSpace (trimSuffixStr (toUpperStr q) "M")
      if clean ≠ q then row.set qtyIdx clean else row
    else row
  else row

/-- `fixMissingNSColumns` from `spatial.go`, restricted to its pure row
transformation (the CSV reading/writing and header-index lookup around
it are plain I/O): the shift pass over all rows, then the QTY-cleaning
pass over all rows. -/
def fixMissingNSColumns (ptNoIdx nsIdx qtyIdx weightIdx : Nat)
    (rows : List (List String)) : List (List String) :=
  (rows.map (fixRowNS ptNoIdx nsIdx qtyIdx weightIdx)).map (cleanQtyCell qtyIdx)

theorem string_length_mk (l : List Char) : (String.mk l).length = l.length := rfl

theorem padToWeight_length (w : Nat) (r : List String) :
    (padToWeight w r).length = max (w + 1) r.length := by
  rw [padToWeight, List.length_append, List.length_replicate]
  omega

theorem trimSpace_length_le (s : String) : (trimSpace s).length ≤ s.length := by
  rw [trimSpace, string_length_mk, List.length_reverse]
  calc ((s.data.dropWhile Char.isWhitespace).reverse.dropWhile
          Char.isWhitespace).length
      ≤ (s.data.dropWhile Char.isWhitespace).reverse.length :=
        (List.dropWhile_sublist _).length_le
    _ = (s.data.dropWhile Char.isWhitespace).length := List.length_reverse _
    _ ≤ s.data.length := (List.dropWhile_sublist _).length_le

theorem toUpperStr_length (s : String) : (toUpperStr s).length = s.length := by
  rw [toUpperStr, string_length_mk, List.length_map]
  rfl

/-- Removing a present `"M"` suffix then trimming strictly shortens the
string, so the cleaned QTY always differs from the original. -/
theorem clean_ne_of_suffix (q : String) (hs : hasSuffixStr (toUpperStr q) "M" = true) :
    trimSpace (trimSuffixStr (toUpperStr q) "M") ≠ q := by
  intro hEq
  have h1 : (trimSuffixStr (toUpperStr q) "M").length = (toUpperStr q).length - 1 := by
    rw [trimSuffixStr, if_pos hs, string_length_mk, List.length_take]
    show min ((toUpperStr q).data.length - ("M" : String).data.length) _
        = (toUpperStr q).data.length - 1
    have hm : ("M" : String).data.length = 1 := rfl
    omega
  have hsuf : ("M" : String).data <:+ (toUpperStr q).data := of_decide_eq_true hs
  have hq1 : 1 ≤ (toUpperStr q).length := by
    have := hsuf.length_le
    simpa using this
  have h2 := trimSpace_length_le (trimSuffixStr (toUpperStr q) "M")
  rw [hEq] at h2
  rw [toUpperStr_length] at h1
  rw [toUpperStr_length] at hq1
  omega

/-- A drawing row whose QTY value `1.2mm` ends in `m` but contains a
second lowercase letter. -/
def exQtyRow : List (List String) := [["P1", "desc", "25", "1.2mm", "5"]]

/-- C10 counterexample: the QTY cell `1.2mm` (suffix removal would give
`1.2m`) is rewritten to `1.2M`: the cleaning pass uppercases the whole
value before stripping the suffix, so cells are not merely
suffix-stripped. -/
theorem fixMissingNS_uppercases_qty :
    fixMissingNSColumns 0 2 3 4 exQtyRow = [["P1", "desc", "25", "1.2M", "5"]] ∧
      ("1.2M" : String) ≠ "1.2m" := by
  decide

/-- C10 (amended): a data row is right-shifted (WEIGHT gets the old QTY,
QTY gets the old N.S., N.S. is cleared, all other cells unchanged)
exactly when its PT NO cell is non-blank and its WEIGHT cell is blank —
a purely position-based trigger — and afterwards every non-blank QTY
value whose uppercase form ends in `M` is replaced by its uppercased
form with the final `M` removed and whitespace trimmed (for values with
no other lowercase letters this is exactly suffix removal); all other
cells are left unchanged. -/
theorem fixMissingNS_characterization (pt ns qty w : Nat)
    (hns : ns ≤ w) (hqty : qty ≤ w)
    (hnq : ns ≠ qty) (hnw : ns ≠ w) (hqw : qty ≠ w) (r : List String) :
    (fixMissingNSColumns pt ns qty w [r] = [cleanQtyCell qty (fixRowNS pt ns qty w r)]) ∧
    (¬ (trimSpace ((padToWeight w r).getD pt "") ≠ "" ∧
          trimSpace ((padToWeight w r).getD w "") = "") →
      fixRowNS pt ns qty w r = padToWeight w r) ∧
    ((trimSpace ((padToWeight w r).getD pt "") ≠ "" ∧
        trimSpace ((padToWeight w r).getD w "") = "") →
      (fixRowNS pt ns qty w r).getD w "" = (padToWeight w r).getD qty "" ∧
      (fixRowNS pt ns qty w r).getD qty "" = (padToWeight w r).getD ns "" ∧
      (fixRowNS pt ns qty w r).getD ns "" = "" ∧
      ∀ i, i ≠ ns → i ≠ qty → i ≠ w →
        (fixRowNS pt ns qty w r).getD i "" = (padToWeight w r).getD i "") ∧
    (∀ m : List String, qty < m.length →
      (¬ (trimSpace (m.getD qty "") ≠ "" ∧
            hasSuffixStr (toUpperStr (trimSpace (m.getD qty ""))) "M" = true) →
        cleanQtyCell qty m = m) ∧
      ((trimSpace (m.getD qty "") ≠ "" ∧
          hasSuffixStr (toUpperStr (trimSpace (m.getD qty ""))) "M" = true) →
        cleanQtyCell qty m =
          m.set qty (trimSpace (trimSuffixStr (toUpperStr (trimSpace (m.getD qty ""))) "M")))) := by
  have hwlen : w < (padToWeight w r).length := by
    rw [padToWeight_length]
    omega
  have hnslen : ns < (padToWeight w r).length := lt_of_le_of_lt hns hwlen
  have hqtylen : qty < (padToWeight w r).length := lt_of_le_of_lt hqty hwlen
  refine ⟨rfl, ?_, ?_, ?_⟩
  · intro hno
    unfold fixRowNS
    rw [if_neg hno]
  · intro hyes
    unfold fixRowNS
    rw [if_pos hyes]
    refine ⟨?_, ?_, ?_, ?_⟩
    · rw [getD_set, if_neg (by tauto), getD_set, if_neg (by tauto), getD_set,
        if_pos ⟨rfl, hwlen⟩]
    · rw [getD_set, if_neg (by tauto), getD_set]
      rw [if_pos ⟨rfl, by simpa using hqtylen⟩]
    · rw [getD_set, if_pos ⟨rfl, by simpa using hnslen⟩]
    · intro i hins hiqty hiw
      rw [getD_set, if_neg (by tauto), getD_set, if_neg (by tauto), getD_set,
        if_neg (by tauto)]
  · intro m hm
    constructor
    · intro hno
      unfold cleanQtyCell
      rw [if_pos hm, if_neg hno]
    · intro hyes
      unfold cleanQtyCell
      rw [if_pos hm, if_pos hyes, if_pos (clean_ne_of_suffix _ hyes.2)]

/-- A row with a blank WEIGHT cell: it is shifted, and the shifted QTY
value `25M` is then cleaned to `25`. -/
def exShiftRow : List String := ["P1", "desc", "25M", "2.4", ""]

/-- C10 witness: the characterization applied to a concrete shifted
row. -/
theorem fixMissingNS_characterization_witness :
    fixMissingNSColumns 0 2 3 4 [exShiftRow]
        = [cleanQtyCell 3 (fixRowNS 0 2 3 4 exShiftRow)] ∧
      (fixRowNS 0 2 3 4 exShiftRow).getD 4 "" = (padToWeight 4 exShiftRow).getD 3 "" :=
  ⟨(fixMissingNS_characterization 0 2 3 4 (by decide) (by decide)
      (by decide) (by decide) (by decide) exShiftRow).1,
   ((fixMissingNS_characterization 0 2 3 4 (by decide) (by decide)
      (by decide) (by decide) (by decide) exShiftRow).2.2.1 (by decide)).1⟩

end Spatial

/-! ## Weld-symbol geometry (`weld_detector.go` / `weld_integration.go`)

Coordinates and lengths are embedded as real numbers; `distance` is the
Euclidean distance with a genuine square root, as in the source. -/

namespace Weld

noncomputable section

/-- `PolylineSegment`: a segment with its precomputed length field. -/
structure PolylineSegment where
  x1 : ℝ
  y1 : ℝ
  x2 : ℝ
  y2 : ℝ
  layer : String := ""
  length : ℝ

/-- `WeldSymbol`: a detected crossing with its confidence. -/
structure WeldSymbol where
  centerX : ℝ
  centerY : ℝ
  length1 : ℝ
  length2 : ℝ
  layer : String := ""
  confidence : ℝ

/-- `distance` (`math.Sqrt(dx*dx + dy*dy)`). -/
def distance (x1 y1 x2 y2 : ℝ) : ℝ :=
  Real.sqrt ((x2 - x1) * (x2 - x1) + (y2 - y1) * (y2 - y1))

/-- `weldLengthPairs`. -/
def weldLengthPairs : List (ℝ × ℝ) := [(4.0311, 6.9462), (6.8964, 3.9446), (6.9, 4.0)]

/-- `lengthsMatch`: some known pair matches within tolerance `0.01`, in
either assignment order. -/
def lengthsMatch (len1 len2 : ℝ) : Prop :=
  ∃ p ∈ weldLengthPairs,
    (|len1 - p.1| ≤ 0.01 ∧ |len2 - p.2| ≤ 0.01) ∨
    (|len1 - p.2| ≤ 0.01 ∧ |len2 - p.1| ≤ 0.01)

/-- The denominator of `linesIntersect`. -/
def denomOf (s1 s2 : PolylineSegment) : ℝ :=
  (s1.x1 - s1.x2) * (s2.y1 - s2.y2) - (s1.y1 - s1.y2) * (s2.x1 - s2.x2)

/-- The parameter `t` of `linesIntersect`. -/
def tOf (s1 s2 : PolylineSegment) : ℝ :=
  ((s1.x1 - s2.x1) * (s2.y1 - s2.y2) - (s1.y1 - s2.y1) * (s2.x1 - s2.x2)) / denomOf s1 s2

/-- The parameter `u` of `linesIntersect`. -/
def uOf (s1 s2 : PolylineSegment) : ℝ :=
  -(((s1.x1 - s1.x2) * (s1.y1 - s2.y1) - (s1.y1 - s1.y2) * (s1.x1 - s2.x1)) / denomOf s1 s2)

/-- The intersection X returned by `linesIntersect`. -/
def ixOf (s1 s2 : PolylineSegment) : ℝ := s1.x1 + tOf s1 s2 * (s1.x2 - s1.x1)

/-- The intersection Y returned by `linesIntersect`. -/
def iyOf (s1 s2 : PolylineSegment) : ℝ := s1.y1 + tOf s1 s2 * (s1.y2 - s1.y1)

/-- The `true` outcome of `linesIntersect`: non-degenerate denominator
and both parameters in `[0, 1]`. -/
def segsIntersect (s1 s2 : PolylineSegment) : Prop :=
  1e-10 ≤ |denomOf s1 s2| ∧
    0 ≤ tOf s1 s2 ∧ tOf s1 s2 ≤ 1 ∧ 0 ≤ uOf s1 s2 ∧ uOf s1 s2 ≤ 1

/-- Midpoint X of a segment. -/
def midX (s : PolylineSegment) : ℝ := (s.x1 + s.x2) / 2

/-- Midpoint Y of a segment. -/
def midY (s : PolylineSegment) : ℝ := (s.y1 + s.y2) / 2

/-- `distToMid1` of `detectWeldSymbols`. -/
def distToMid1 (s1 s2 : PolylineSegment) : ℝ :=
  distance (ixOf s1 s2) (iyOf s1 s2) (midX s1) (midY s1)

/-- `distToMid2` of `detectWeldSymbols`. -/
def distToMid2 (s1 s2 : PolylineSegment) : ℝ :=
  distance (ixOf s1 s2) (iyOf s1 s2) (midX s2) (midY s2)

/-- The 30% midpoint tolerance. -/
def tolerance (s : PolylineSegment) : ℝ := s.length * 0.3

/-- The acceptance condition of the `detectWeldSymbols` pair loop:
matching lengths, a crossing, and the intersection within 30% of each
segment's length from that segment's midpoint. -/
def pairAccepted (s1 s2 : PolylineSegment) : Prop :=
  lengthsMatch s1.length s2.length ∧ segsIntersect s1 s2 ∧
    distToMid1 s1 s2 ≤ tolerance s1 ∧ distToMid2 s1 s2 ≤ tolerance s2

/-- The confidence formula of `detectWeldSymbols`. -/
def confidence (s1 s2 : PolylineSegment) : ℝ :=
  1 - max (distToMid1 s1 s2) (distToMid2 s1 s2) / max (tolerance s1) (tolerance s2)

end

/-- Any length matching a known weld pair is positive. -/
theorem length_pos_of_match (l1 l2 : ℝ) (h : lengthsMatch l1 l2) : 0 < l1 ∧ 0 < l2 := by
  obtain ⟨p, hp, hcase⟩ := h
  simp only [weldLengthPairs, List.mem_cons, List.not_mem_nil, or_false] at hp
  rcases hp with rfl | rfl | rfl <;>
    rcases hcase with ⟨ha, hb⟩ | ⟨ha, hb⟩ <;>
    rw [abs_le] at ha hb <;>
    constructor <;> norm_num at ha hb ⊢ <;> linarith

/-- C6: an accepted pair satisfies the 30%-of-length midpoint condition
on both segments, its confidence
`1 - max(distToMid1, distToMid2) / max(tolerance1, tolerance2)` always
lies in `[0, 1]`, and it equals `1` when the pair crosses exactly at
both midpoints. -/
theorem weld_pair_confidence (s1 s2 : PolylineSegment) (h : pairAccepted s1 s2) :
    (distToMid1 s1 s2 ≤ tolerance s1 ∧ distToMid2 s1 s2 ≤ tolerance s2) ∧
    0 ≤ confidence s1 s2 ∧ confidence s1 s2 ≤ 1 ∧
    (ixOf s1 s2 = midX s1 ∧ iyOf s1 s2 = midY s1 ∧
        ixOf s1 s2 = midX s2 ∧ iyOf s1 s2 = midY s2 →
      confidence s1 s2 = 1) := by
  obtain ⟨hmatch, -, hd1, hd2⟩ := h
  obtain ⟨hl1, hl2⟩ := length_pos_of_match _ _ hmatch
  have ht1 : 0 < tolerance s1 := by
    rw [tolerance]
    positivity
  have ht2 : 0 < tolerance s2 := by
    rw [tolerance]
    positivity
  have htmax : 0 < max (tolerance s1) (tolerance s2) := lt_max_of_lt_left ht1
  have hd1nn : 0 ≤ distToMid1 s1 s2 := Real.sqrt_nonneg _
  have hd2nn : 0 ≤ distToMid2 s1 s2 := Real.sqrt_nonneg _
  have hdmax : max (distToMid1 s1 s2) (distToMid2 s1 s2)
      ≤ max (tolerance s1) (tolerance s2) :=
    max_le (le_trans hd1 (le_max_left _ _)) (le_trans hd2 (le_max_right _ _))
  refine ⟨⟨hd1, hd2⟩, ?_, ?_, ?_⟩
  · rw [confidence]
    have : max (distToMid1 s1 s2) (distToMid2 s1 s2) / max (tolerance s1) (tolerance s2)
        ≤ 1 := (div_le_one htmax).mpr hdmax
    linarith
  · rw [confidence]
    have h0 : 0 ≤ max (distToMid1 s1 s2) (distToMid2 s1 s2) := le_max_of_le_left hd1nn
    have : 0 ≤ max (distToMid1 s1 s2) (distToMid2 s1 s2) / max (tolerance s1) (tolerance s2) :=
      div_nonneg h0 (le_of_lt htmax)
    linarith
  · rintro ⟨hx1, hy1, hx2, hy2⟩
    have hz1 : distToMid1 s1 s2 = 0 := by
      rw [distToMid1, distance, hx1, hy1]
      simp
    have hz2 : distToMid2 s1 s2 = 0 := by
      rw [distToMid2, distance, hx2, hy2]
      simp
    rw [confidence, hz1, hz2]
    simp

/-- A horizontal length-4 segment crossing a vertical length-6.9
segment exactly at both midpoints. -/
noncomputable def crossSeg1 : PolylineSegment := ⟨-2, 0, 2, 0, "", 4⟩

/-- The vertical partner of `crossSeg1`. -/
noncomputable def crossSeg2 : PolylineSegment := ⟨0, -3.45, 0, 3.45, "", 6.9⟩

theorem crossSegs_accepted : pairAccepted crossSeg1 crossSeg2 := by
  have hden : denomOf crossSeg1 crossSeg2 = 27.6 := by
    rw [denomOf]
    norm_num [crossSeg1, crossSeg2]
  have ht : tOf crossSeg1 crossSeg2 = 1/2 := by
    rw [tOf, hden]
    norm_num [crossSeg1, crossSeg2]
  have hu : uOf crossSeg1 crossSeg2 = 1/2 := by
    rw [uOf, hden]
    norm_num [crossSeg1, crossSeg2]
  have hix : ixOf crossSeg1 crossSeg2 = 0 := by
    rw [ixOf, ht]
    norm_num [crossSeg1, crossSeg2]
  have hiy : iyOf crossSeg1 crossSeg2 = 0 := by
    rw [iyOf, ht]
    norm_num [crossSeg1, crossSeg2]
  have hd1 : distToMid1 crossSeg1 crossSeg2 = 0 := by
    rw [distToMid1, distance, hix, hiy]
    norm_num [midX, midY, crossSeg1]
  have hd2 : distToMid2 crossSeg1 crossSeg2 = 0 := by
    rw [distToMid2, distance, hix, hiy]
    norm_num [midX, midY, crossSeg2]
  refine ⟨⟨(6.9, 4.0), by simp [weldLengthPairs], Or.inr ⟨?_, ?_⟩⟩, ?_, ?_, ?_⟩
  · norm_num [crossSeg1]
  · norm_num [crossSeg2]
  · rw [segsIntersect, ht, hu, hden]
    norm_num [abs_of_nonneg]
  · rw [hd1, tolerance]
    norm_num [crossSeg1]
  · rw [hd2, tolerance]
    norm_num [crossSeg2]

/-- C6 witness: the confidence bounds evaluated on the perfect cross. -/
theorem weld_pair_confidence_witness :
    (distToMid1 crossSeg1 crossSeg2 ≤ tolerance crossSeg1 ∧
      distToMid2 crossSeg1 crossSeg2 ≤ tolerance crossSeg2) ∧
    0 ≤ confidence crossSeg1 crossSeg2 ∧ confidence crossSeg1 crossSeg2 ≤ 1 ∧
    (ixOf crossSeg1 crossSeg2 = midX crossSeg1 ∧ iyOf crossSeg1 crossSeg2 = midY crossSeg1 ∧
        ixOf crossSeg1 crossSeg2 = midX crossSeg2 ∧ iyOf crossSeg1 crossSeg2 = midY crossSeg2 →
      confidence crossSeg1 crossSeg2 = 1) :=
  weld_pair_confidence crossSeg1 crossSeg2 crossSegs_accepted

/-! ## C9: deduplication idempotence -/

/-- Is a symbol a near-duplicate (center distance `< 5.0`) of one of the
already-kept symbols? -/
def isDupOf (s : WeldSymbol) (unique : List WeldSymbol) : Prop :=
  ∃ e ∈ unique, distance s.centerX s.centerY e.centerX e.centerY < 5

open Classical in
/-- The accumulation loop of `removeDuplicateSymbols`. -/
noncomputable def dedupAux (acc : List WeldSymbol) : List WeldSymbol → List WeldSymbol
  | [] => acc
  | s :: rest =>
    if isDupOf s acc then dedupAux acc rest else dedupAux (acc ++ [s]) rest

/-- `removeDuplicateSymbols` from `weld_detector.go` (all three
identical copies). -/
noncomputable def removeDuplicateSymbols (symbols : List WeldSymbol) : List WeldSymbol :=
  if symbols.length ≤ 1 then symbols else dedupAux [] symbols

/-- No element of the list is a near-duplicate of the accumulator plus
its own predecessors. -/
def NoDupsFrom (acc : List WeldSymbol) : List WeldSymbol → Prop
  | [] => True
  | s :: rest => ¬ isDupOf s acc ∧ NoDupsFrom (acc ++ [s]) rest

theorem dedupAux_of_noDups (xs : List WeldSymbol) : ∀ acc : List WeldSymbol,
    NoDupsFrom acc xs → dedupAux acc xs = acc ++ xs := by
  induction xs with
  | nil =>
    intro acc _
    simp [dedupAux]
  | cons s rest ih =>
    intro acc h
    obtain ⟨h1, h2⟩ := h
    rw [dedupAux, if_neg h1, ih _ h2]
    simp

theorem dedupAux_noDups (xs : List WeldSymbol) : ∀ acc : List WeldSymbol,
    ∃ t, dedupAux acc xs = acc ++ t ∧ NoDupsFrom acc t := by
  induction xs with
  | nil =>
    intro acc
    exact ⟨[], by simp [dedupAux], trivial⟩
  | cons s rest ih =>
    intro acc
    by_cases h : isDupOf s acc
    · obtain ⟨t, ht, hn⟩ := ih acc
      exact ⟨t, by rw [dedupAux, if_pos h, ht], hn⟩
    · obtain ⟨t, ht, hn⟩ := ih (acc ++ [s])
      refine ⟨s :: t, ?_, h, hn⟩
      rw [dedupAux, if_neg h, ht]
      simp

/-- C9: deduplication is idempotent — applying
`removeDuplicateSymbols` to its own output returns that output
unchanged. -/
theorem removeDuplicateSymbols_idempotent (xs : List WeldSymbol) :
    removeDuplicateSymbols (removeDuplicateSymbols xs) = removeDuplicateSymbols xs := by
  unfold removeDuplicateSymbols
  by_cases h : xs.length ≤ 1
  · rw [if_pos h, if_pos h]
  · rw [if_neg h]
    obtain ⟨t, ht, hn⟩ := dedupAux_noDups xs []
    rw [List.nil_append] at ht
    rw [ht]
    by_cases h2 : t.length ≤ 1
    · rw [if_pos h2]
    · rw [if_neg h2, dedupAux_of_noDups t [] hn, List.nil_append]

end Weld

end Dxf
